import Mathlib

/-!
# Capacity-bounded in-memory key/value store

A shallow embedding of `index.go`: the `InMemoryStore` struct with its
constructor `NewInMemoryStore`, the three methods `Add`, `Get` and `Delete`,
and the three HTTP handlers registered in `main`.

Modelling choices.

* A Go `map[string]string` is a finite partial function from strings to
  strings without any order, which is `Finmap (fun _ : String => String)`;
  `m[k] = v` is `Finmap.insert`, `delete(m, k)` is `Finmap.erase`, the
  two-result read `v, ok := m[k]` is `Finmap.lookup`, and `len(m)` is the
  number of keys.
* `maxSize` is a Go `int`, so it may be negative: it is an `Int`, and `len`
  is cast into `Int` for the comparison of `Add`.
* Every method holds `store.mu` from its first to its last statement, so a
  method call is one atomic step on the store; a method is a function from
  the store to its result and the store it leaves.
-/

namespace Cache

/-- The Go type `map[string]string`. -/
abbrev GoMap := Finmap (fun _ : String => String)

/-- The Go builtin `len` on a map: the number of keys. -/
def len (m : GoMap) : Nat := m.keys.card

/-- The struct `InMemoryStore` (the mutex has no content of its own). -/
structure InMemoryStore where
  data : GoMap
  maxSize : Int
  deriving DecidableEq

/-- The constructor `NewInMemoryStore(maxSize)`: an empty map and the given bound. -/
def NewInMemoryStore (maxSize : Int) : InMemoryStore :=
  { data := ∅, maxSize := maxSize }

namespace InMemoryStore

/-- The method `store.Add(key, value)`: refuse when `len(store.data) >= store.maxSize`,
otherwise assign `store.data[key] = value`. -/
def Add (store : InMemoryStore) (key value : String) : Bool × InMemoryStore :=
  if (len store.data : Int) ≥ store.maxSize then
    (false, store)
  else
    (true, { store with data := store.data.insert key value })

/-- The method `store.Get(key)`: the two-result map read; an absent key reads as the
zero value `""` with `false`. -/
def Get (store : InMemoryStore) (key : String) : (String × Bool) × InMemoryStore :=
  match store.data.lookup key with
  | some value => ((value, true), store)
  | none => (("", false), store)

/-- The method `store.Delete(key)`: delete the key when it exists, return whether it
existed. -/
def Delete (store : InMemoryStore) (key : String) : Bool × InMemoryStore :=
  let «exists» := (store.data.lookup key).isSome
  if «exists» then
    (true, { store with data := store.data.erase key })
  else
    (false, store)

end InMemoryStore

/-- One call of a method of the store, with its arguments. -/
inductive Op where
  | add (key value : String)
  | get (key : String)
  | delete (key : String)
  deriving DecidableEq

/-- What a method call returns. -/
inductive Res where
  | added (ok : Bool)
  | got (value : String) (found : Bool)
  | deleted (ok : Bool)
  deriving DecidableEq

/-- Perform one method call: its result and the store it leaves. -/
def call (store : InMemoryStore) : Op → Res × InMemoryStore
  | .add key value => (.added (store.Add key value).1, (store.Add key value).2)
  | .get key => (.got (store.Get key).1.1 (store.Get key).1.2, (store.Get key).2)
  | .delete key => (.deleted (store.Delete key).1, (store.Delete key).2)

/-- Perform a finite sequence of method calls one after the other (the order
in which the mutex serialises them) and return the final store. -/
def run (store : InMemoryStore) : List Op → InMemoryStore
  | [] => store
  | op :: ops => run (call store op).2 ops

/-- The results of a finite sequence of method calls, in order. -/
def results (store : InMemoryStore) : List Op → List Res
  | [] => []
  | op :: ops => (call store op).1 :: results (call store op).2 ops

/-- Perform one `Add` per pair of the list, in the order of the list;
returns the results of the calls, in order, and the final store. -/
def addAll (store : InMemoryStore) : List (String × String) → List Bool × InMemoryStore
  | [] => ([], store)
  | kv :: kvs =>
    ((store.Add kv.1 kv.2).1 :: (addAll (store.Add kv.1 kv.2).2 kvs).1,
      (addAll (store.Add kv.1 kv.2).2 kvs).2)

/-! ## The HTTP handlers of `main`

A handler reads the method, the body and the URL query of the request,
possibly calls methods of the store, and writes a status code and a body.
A handler is a program over the store: it either answers, or calls one
method of the store and goes on with what the method returned. It has no
other access to the store, so what it answers after a call can depend on the
store only through the result of that call, and the calls it makes are those
that `Handler.exec` performs when it runs the program.
The JSON decoder of `encoding/json` is a parameter `decode`: `none` stands for
`err != nil`, `some (key, value)` for the decoded fields `req.Key` and
`req.Value`. -/

/-- The parts of `*http.Request` the handlers read: `r.Method`, `r.Body` as
the text it carries, and `r.URL.Query()` as the list of its pairs in the order
of the query string. -/
structure Request where
  Method : String
  Body : String
  Query : List (String × String)

/-- The call `r.URL.Query().Get(key)`: the first value given for `key`, or `""`. -/
def Request.queryGet (r : Request) (key : String) : String :=
  match r.Query.find? (fun p => p.1 == key) with
  | some p => p.2
  | none => ""

def MethodGet : String := "GET"
def MethodPost : String := "POST"
def MethodDelete : String := "DELETE"
def StatusOK : Nat := 200
def StatusCreated : Nat := 201
def StatusBadRequest : Nat := 400
def StatusNotFound : Nat := 404
def StatusMethodNotAllowed : Nat := 405
def StatusConflict : Nat := 409

/-- A handler body as a program over the store: `respond` writes the status
code and the body to `w` (and lines to standard output) and returns;
`callAdd`, `callGet` and `callDelete` call `store.Add`, `store.Get` and
`store.Delete` and continue with what the method returned. -/
inductive Handler where
  | respond (status : Nat) (body : String) (stdout : List String)
  | callAdd (key value : String) (next : Bool → Handler)
  | callGet (key : String) (next : String → Bool → Handler)
  | callDelete (key : String) (next : Bool → Handler)

/-- What running a handler did: the response written to `w` (status code and
body), the lines printed on standard output, the store methods that were
called, in order, and the store afterwards. -/
structure Outcome where
  status : Nat
  body : String
  stdout : List String
  calls : List Op
  store : InMemoryStore
  deriving DecidableEq

/-- Run a handler on a store: every `callAdd`, `callGet` and `callDelete` is
performed on the store of that moment and recorded, its result is handed to
the rest of the handler. -/
def Handler.exec : Handler → InMemoryStore → Outcome
  | .respond status body out, store =>
    { status := status, body := body, stdout := out, calls := [], store := store }
  | .callAdd key value next, store =>
    { (next (store.Add key value).1).exec (store.Add key value).2 with
      calls := Op.add key value
        :: ((next (store.Add key value).1).exec (store.Add key value).2).calls }
  | .callGet key next, store =>
    { (next (store.Get key).1.1 (store.Get key).1.2).exec (store.Get key).2 with
      calls := Op.get key
        :: ((next (store.Get key).1.1 (store.Get key).1.2).exec (store.Get key).2).calls }
  | .callDelete key next, store =>
    { (next (store.Delete key).1).exec (store.Delete key).2 with
      calls := Op.delete key
        :: ((next (store.Delete key).1).exec (store.Delete key).2).calls }

/-- The call `http.Error(w, msg, code)` followed by `return`: the status
`code` and the body `msg` followed by a newline. -/
def httpError (msg : String) (code : Nat) (out : List String) : Handler :=
  .respond code (msg ++ "\n") out

/-- The handler registered for `/add`. -/
def handleAdd (decode : String → Option (String × String)) (r : Request) : Handler :=
  if r.Method ≠ MethodPost then
    httpError "Invalid request method" StatusMethodNotAllowed ["error in post request"]
  else
    match decode r.Body with
    | none => httpError "Invalid request body" StatusBadRequest []
    | some (key, value) =>
      .callAdd key value fun ok =>
        if ok then
          .respond StatusCreated ("Added: " ++ key ++ " -> " ++ value ++ "\n") []
        else
          httpError "Store is full" StatusConflict []

/-- The handler registered for `/get`. -/
def handleGet (r : Request) : Handler :=
  if r.Method ≠ MethodGet then
    httpError "Invalid request method" StatusMethodNotAllowed []
  else
    .callGet (r.queryGet "key") fun value «exists» =>
      if «exists» then
        .respond StatusOK ("Retrieved: " ++ r.queryGet "key" ++ " -> " ++ value ++ "\n") []
      else
        httpError "Key not found" StatusNotFound []

/-- The handler registered for `/delete`. -/
def handleDelete (r : Request) : Handler :=
  if r.Method ≠ MethodDelete then
    httpError "Invalid request method" StatusMethodNotAllowed []
  else
    .callDelete (r.queryGet "key") fun ok =>
      if ok then
        .respond StatusOK ("Deleted key: " ++ r.queryGet "key" ++ "\n") []
      else
        httpError "Key not found" StatusNotFound []

/-! ## Facts about `len` on maps -/

theorem keys_insert (m : GoMap) (k v : String) :
    (m.insert k v).keys = insert k m.keys := by
  ext x
  simp [Finmap.mem_keys, Finmap.mem_insert]

theorem len_empty : len (∅ : GoMap) = 0 := by
  simp [len, Finmap.keys_empty]

theorem len_insert_le (m : GoMap) (k v : String) :
    len (m.insert k v) ≤ len m + 1 := by
  unfold len
  rw [keys_insert]
  exact Finset.card_insert_le k m.keys

theorem len_insert_of_mem (m : GoMap) (k v : String) (h : k ∈ m) :
    len (m.insert k v) = len m := by
  unfold len
  rw [keys_insert, Finset.card_insert_of_mem (Finmap.mem_keys.mpr h)]

theorem len_insert_of_not_mem (m : GoMap) (k v : String) (h : k ∉ m) :
    len (m.insert k v) = len m + 1 := by
  unfold len
  rw [keys_insert, Finset.card_insert_of_not_mem (fun hk => h (Finmap.mem_keys.mp hk))]

theorem len_erase_of_mem (m : GoMap) (k : String) (h : k ∈ m) :
    len (m.erase k) + 1 = len m := by
  unfold len
  rw [Finmap.keys_erase, Finset.card_erase_of_mem (Finmap.mem_keys.mpr h)]
  have : 0 < m.keys.card := Finset.card_pos.mpr ⟨k, Finmap.mem_keys.mpr h⟩
  omega

theorem len_erase_le (m : GoMap) (k : String) : len (m.erase k) ≤ len m := by
  unfold len
  rw [Finmap.keys_erase]
  exact Finset.card_erase_le

theorem erase_of_not_mem (m : GoMap) (k : String) (h : k ∉ m) : m.erase k = m := by
  apply Finmap.ext_lookup
  intro x
  by_cases hx : x = k
  · subst hx
    rw [Finmap.lookup_erase, eq_comm, Finmap.lookup_eq_none]
    exact h
  · exact Finmap.lookup_erase_ne hx

/-! ## The methods, case by case -/

theorem Add_of_full (store : InMemoryStore) (key value : String)
    (h : store.maxSize ≤ (len store.data : Int)) :
    store.Add key value = (false, store) := by
  unfold InMemoryStore.Add
  rw [if_pos h]

theorem Add_of_room (store : InMemoryStore) (key value : String)
    (h : (len store.data : Int) < store.maxSize) :
    store.Add key value = (true, { store with data := store.data.insert key value }) := by
  unfold InMemoryStore.Add
  rw [if_neg (by omega)]

theorem Add_maxSize (store : InMemoryStore) (key value : String) :
    (store.Add key value).2.maxSize = store.maxSize := by
  unfold InMemoryStore.Add
  split <;> rfl

theorem Get_store (store : InMemoryStore) (key : String) : (store.Get key).2 = store := by
  unfold InMemoryStore.Get
  split <;> rfl

theorem Get_fst (store : InMemoryStore) (key : String) :
    (store.Get key).1 =
      ((store.data.lookup key).getD "", (store.data.lookup key).isSome) := by
  unfold InMemoryStore.Get
  split <;> rename_i h <;> simp [h]

theorem Delete_of_mem (store : InMemoryStore) (key : String) (h : key ∈ store.data) :
    store.Delete key = (true, { store with data := store.data.erase key }) := by
  unfold InMemoryStore.Delete
  simp [Finmap.lookup_isSome.mpr h]

theorem Delete_of_not_mem (store : InMemoryStore) (key : String) (h : key ∉ store.data) :
    store.Delete key = (false, store) := by
  unfold InMemoryStore.Delete
  simp [Finmap.lookup_eq_none.mpr h]

theorem Delete_maxSize (store : InMemoryStore) (key : String) :
    (store.Delete key).2.maxSize = store.maxSize := by
  by_cases h : key ∈ store.data
  · rw [Delete_of_mem store key h]
  · rw [Delete_of_not_mem store key h]

theorem call_maxSize (store : InMemoryStore) (op : Op) :
    (call store op).2.maxSize = store.maxSize := by
  cases op with
  | add key value => exact Add_maxSize store key value
  | get key => simp [call, Get_store]
  | delete key => exact Delete_maxSize store key

theorem run_maxSize (ops : List Op) (store : InMemoryStore) :
    (run store ops).maxSize = store.maxSize := by
  induction ops generalizing store with
  | nil => rfl
  | cons op ops ih => rw [run, ih, call_maxSize]

theorem run_append (xs ys : List Op) (store : InMemoryStore) :
    run store (xs ++ ys) = run (run store xs) ys := by
  induction xs generalizing store with
  | nil => rfl
  | cons op xs ih => simp [run, ih]

/-! ## The capacity invariant -/

theorem Add_len_le (store : InMemoryStore) (key value : String)
    (h : (len store.data : Int) ≤ store.maxSize) :
    (len (store.Add key value).2.data : Int) ≤ store.maxSize := by
  by_cases hf : store.maxSize ≤ (len store.data : Int)
  · rw [Add_of_full store key value hf]
    exact h
  · have hr : (len store.data : Int) < store.maxSize := by omega
    rw [Add_of_room store key value hr]
    have := len_insert_le store.data key value
    simp only
    omega

theorem Delete_len_le (store : InMemoryStore) (key : String) :
    len (store.Delete key).2.data ≤ len store.data := by
  by_cases h : key ∈ store.data
  · rw [Delete_of_mem store key h]
    exact len_erase_le store.data key
  · rw [Delete_of_not_mem store key h]

theorem call_len_le (store : InMemoryStore) (op : Op)
    (h : (len store.data : Int) ≤ store.maxSize) :
    (len (call store op).2.data : Int) ≤ store.maxSize := by
  cases op with
  | add key value => exact Add_len_le store key value h
  | get key => simpa [call, Get_store] using h
  | delete key =>
    have := Delete_len_le store key
    simp only [call]
    omega

theorem run_len_le (ops : List Op) (store : InMemoryStore)
    (h : (len store.data : Int) ≤ store.maxSize) :
    (len (run store ops).data : Int) ≤ store.maxSize := by
  induction ops generalizing store with
  | nil => exact h
  | cons op ops ih =>
    rw [run]
    have := ih (call store op).2 (by rw [call_maxSize]; exact call_len_le store op h)
    rwa [call_maxSize] at this

/-- Claim C1: for every capacity `c ≥ 0` and every finite sequence of `Add`,
`Get` and `Delete` calls on the store returned by `NewInMemoryStore c`, the
map is empty before the first call and has at most `c` entries after each
call of the sequence (after the first `n` calls, for every `n`). -/
theorem len_le_capacity (c : Int) (hc : 0 ≤ c) (ops : List Op) :
    len (NewInMemoryStore c).data = 0 ∧
      ∀ n : Nat, (len (run (NewInMemoryStore c) (ops.take n)).data : Int) ≤ c := by
  refine ⟨len_empty, fun n => ?_⟩
  have h0 : (len (NewInMemoryStore c).data : Int) ≤ (NewInMemoryStore c).maxSize := by
    show ((len (∅ : GoMap) : Nat) : Int) ≤ c
    rw [len_empty]
    exact_mod_cast hc
  exact run_len_le (ops.take n) (NewInMemoryStore c) h0

theorem len_le_capacity_witness :
    (0 : Int) ≤ 1 ∧
      (len (NewInMemoryStore 1).data = 0 ∧
        ∀ n : Nat, (len (run (NewInMemoryStore 1)
          ([Op.add "a" "1", Op.add "b" "2", Op.get "a", Op.delete "a"].take n)).data : Int) ≤ 1) :=
  ⟨by decide, len_le_capacity 1 (by decide) _⟩

/-- Claim C2: `Add` returns `true` exactly when the number of entries at call
time is strictly below `maxSize`; the key and the value (so also whether the
key is already present) have no influence on the result. -/
theorem Add_true_iff (store : InMemoryStore) (key value : String) :
    ((store.Add key value).1 = true ↔ (len store.data : Int) < store.maxSize) ∧
      ∀ key2 value2 : String, (store.Add key2 value2).1 = (store.Add key value).1 := by
  constructor
  · by_cases hf : store.maxSize ≤ (len store.data : Int)
    · rw [Add_of_full store key value hf]
      simp
      exact hf
    · have hr : (len store.data : Int) < store.maxSize := by omega
      rw [Add_of_room store key value hr]
      simp [hr]
  · intro key2 value2
    by_cases hf : store.maxSize ≤ (len store.data : Int)
    · rw [Add_of_full store key value hf, Add_of_full store key2 value2 hf]
    · have hr : (len store.data : Int) < store.maxSize := by omega
      rw [Add_of_room store key value hr, Add_of_room store key2 value2 hr]

/-- Claim C3: on a store whose number of entries equals `maxSize`, `Add`
returns `false` and leaves the store (map and `maxSize`) as it was; in
particular a key already present keeps its old value. -/
theorem Add_full_rejects (store : InMemoryStore) (key value : String)
    (h : (len store.data : Int) = store.maxSize) :
    store.Add key value = (false, store) ∧
      ∀ old : String, store.data.lookup key = some old →
        ((store.Add key value).2.Get key).1 = (old, true) := by
  have hadd : store.Add key value = (false, store) :=
    Add_of_full store key value (le_of_eq h.symm)
  refine ⟨hadd, fun old hold => ?_⟩
  rw [hadd, Get_fst]
  simp [hold]

theorem Add_full_rejects_witness :
    (len (InMemoryStore.mk (Finmap.singleton "a" "1") 1).data : Int)
        = (InMemoryStore.mk (Finmap.singleton "a" "1") 1).maxSize ∧
      ((InMemoryStore.mk (Finmap.singleton "a" "1") 1).Add "a" "2"
          = (false, InMemoryStore.mk (Finmap.singleton "a" "1") 1) ∧
        ∀ old : String, (InMemoryStore.mk (Finmap.singleton "a" "1") 1).data.lookup "a" = some old →
          (((InMemoryStore.mk (Finmap.singleton "a" "1") 1).Add "a" "2").2.Get "a").1
            = (old, true)) :=
  ⟨by decide, Add_full_rejects _ "a" "2" (by decide)⟩

/-! ## Reading back what was written -/

theorem lookup_Add_self (store : InMemoryStore) (k v : String)
    (h : (store.Add k v).1 = true) : (store.Add k v).2.data.lookup k = some v := by
  by_cases hf : store.maxSize ≤ (len store.data : Int)
  · rw [Add_of_full store k v hf] at h
    exact absurd h Bool.false_ne_true
  · rw [Add_of_room store k v (by omega)]
    exact Finmap.lookup_insert store.data

theorem lookup_Add_of_ne (store : InMemoryStore) (k v x : String) (hx : x ≠ k) :
    (store.Add k v).2.data.lookup x = store.data.lookup x := by
  by_cases hf : store.maxSize ≤ (len store.data : Int)
  · rw [Add_of_full store k v hf]
  · rw [Add_of_room store k v (by omega)]
    exact Finmap.lookup_insert_of_ne store.data hx

theorem lookup_Delete_self (store : InMemoryStore) (k : String) :
    (store.Delete k).2.data.lookup k = none := by
  by_cases h : k ∈ store.data
  · rw [Delete_of_mem store k h]
    exact Finmap.lookup_erase k store.data
  · rw [Delete_of_not_mem store k h]
    exact Finmap.lookup_eq_none.mpr h

theorem lookup_Delete_of_ne (store : InMemoryStore) (k x : String) (hx : x ≠ k) :
    (store.Delete k).2.data.lookup x = store.data.lookup x := by
  by_cases h : k ∈ store.data
  · rw [Delete_of_mem store k h]
    exact Finmap.lookup_erase_ne hx
  · rw [Delete_of_not_mem store k h]

/-- A call that is neither `Delete k` nor an `Add` on `k` leaves the entry
of `k` alone. -/
theorem lookup_call_of_untouched (store : InMemoryStore) (k : String) (op : Op)
    (hd : op ≠ Op.delete k) (ha : ∀ v : String, op ≠ Op.add k v) :
    (call store op).2.data.lookup k = store.data.lookup k := by
  cases op with
  | add key value =>
    have hk : k ≠ key := fun e => ha value (by rw [e])
    exact lookup_Add_of_ne store key value k hk
  | get key => simp [call, Get_store]
  | delete key =>
    have hk : k ≠ key := fun e => hd (by rw [e])
    exact lookup_Delete_of_ne store key k hk

theorem lookup_run_of_untouched (ops : List Op) (store : InMemoryStore) (k : String)
    (h : ∀ op ∈ ops, op ≠ Op.delete k ∧ ∀ v : String, op ≠ Op.add k v) :
    (run store ops).data.lookup k = store.data.lookup k := by
  induction ops generalizing store with
  | nil => rfl
  | cons op ops ih =>
    rw [run, ih (call store op).2 (fun o ho => h o (List.mem_cons_of_mem op ho))]
    exact lookup_call_of_untouched store k op (h op (List.mem_cons_self op ops)).1
      (h op (List.mem_cons_self op ops)).2

/-- Claim C4: when `Add k v` returns `true`, `Get k` returns `(v, true)`
right afterwards, and still does after any further finite sequence of calls
with no `Delete k` and no `Add` on `k`; the successful `Add` puts `v` in the
place of an old value of `k` and leaves the entry of every other key (and
`maxSize`) as it was. -/
theorem Get_after_Add (store : InMemoryStore) (k v : String)
    (h : (store.Add k v).1 = true) :
    ((store.Add k v).2.Get k).1 = (v, true) ∧
      (∀ ops : List Op, (∀ op ∈ ops, op ≠ Op.delete k ∧ ∀ w : String, op ≠ Op.add k w) →
        ((run (store.Add k v).2 ops).Get k).1 = (v, true)) ∧
      (∀ old : String, store.data.lookup k = some old →
        (store.Add k v).2.data.lookup k = some v) ∧
      (∀ x : String, x ≠ k → ((store.Add k v).2.Get x).1 = (store.Get x).1) ∧
      (store.Add k v).2.maxSize = store.maxSize := by
  have hk := lookup_Add_self store k v h
  refine ⟨?_, ?_, fun _ _ => hk, ?_, Add_maxSize store k v⟩
  · rw [Get_fst, hk]
    rfl
  · intro ops hops
    rw [Get_fst, lookup_run_of_untouched ops _ k hops, hk]
    rfl
  · intro x hx
    rw [Get_fst, Get_fst, lookup_Add_of_ne store k v x hx]

theorem Get_after_Add_witness :
    ((InMemoryStore.mk (Finmap.singleton "a" "1") 2).Add "a" "2").1 = true ∧
      (((InMemoryStore.mk (Finmap.singleton "a" "1") 2).Add "a" "2").2.Get "a").1
        = ("2", true) :=
  ⟨by decide, (Get_after_Add _ "a" "2" (by decide)).1⟩

/-- Claim C5: `Delete k` of a present key returns `true`; afterwards `Get k`
returns `("", false)`, the map has exactly one entry less, and every other
key has the entry it had (the same value, or none); `maxSize` is the same. -/
theorem Delete_present (store : InMemoryStore) (k : String) (h : k ∈ store.data) :
    (store.Delete k).1 = true ∧
      ((store.Delete k).2.Get k).1 = ("", false) ∧
      len (store.Delete k).2.data + 1 = len store.data ∧
      (∀ x : String, x ≠ k → (store.Delete k).2.data.lookup x = store.data.lookup x) ∧
      (store.Delete k).2.maxSize = store.maxSize := by
  refine ⟨?_, ?_, ?_, fun x hx => lookup_Delete_of_ne store k x hx, Delete_maxSize store k⟩
  · rw [Delete_of_mem store k h]
  · rw [Get_fst, lookup_Delete_self]
    rfl
  · rw [Delete_of_mem store k h]
    exact len_erase_of_mem store.data k h

theorem Delete_present_witness :
    "a" ∈ (InMemoryStore.mk (Finmap.singleton "a" "1") 2).data ∧
      ((InMemoryStore.mk (Finmap.singleton "a" "1") 2).Delete "a").1 = true :=
  ⟨by decide, (Delete_present _ "a" (by decide)).1⟩

/-- Claim C6: `Delete k` of an absent key returns `false` and leaves the
store (map and `maxSize`) as it was; so on every store a second `Delete k`
returns `false` and leaves the store of the first one. -/
theorem Delete_absent_idempotent (store : InMemoryStore) (k : String) :
    (k ∉ store.data → store.Delete k = (false, store)) ∧
      (store.Delete k).2.Delete k = (false, (store.Delete k).2) := by
  refine ⟨Delete_of_not_mem store k, ?_⟩
  apply Delete_of_not_mem
  rw [← Finmap.lookup_eq_none]
  exact lookup_Delete_self store k

theorem Delete_absent_idempotent_witness :
    "b" ∉ (InMemoryStore.mk (Finmap.singleton "a" "1") 2).data ∧
      (InMemoryStore.mk (Finmap.singleton "a" "1") 2).Delete "b"
        = (false, InMemoryStore.mk (Finmap.singleton "a" "1") 2) :=
  ⟨by decide, (Delete_absent_idempotent _ "b").1 (by decide)⟩

/-- Claim C7: `Get k` returns `(v, true)` when `k` is present with value `v`
(whatever `v` is, the empty string included) and `("", false)` when `k` is
absent, and it returns the store as it was. -/
theorem Get_spec (store : InMemoryStore) (k : String) :
    (∀ v : String, store.data.lookup k = some v → store.Get k = ((v, true), store)) ∧
      (store.data.lookup k = none → store.Get k = (("", false), store)) := by
  constructor
  · intro v hv
    unfold InMemoryStore.Get
    rw [hv]
  · intro hn
    unfold InMemoryStore.Get
    rw [hn]

theorem Get_spec_witness :
    (InMemoryStore.mk (Finmap.singleton "a" "") 2).data.lookup "a" = some "" ∧
      (InMemoryStore.mk (Finmap.singleton "a" "") 2).Get "a"
        = (("", true), InMemoryStore.mk (Finmap.singleton "a" "") 2) :=
  ⟨by decide, (Get_spec _ "a").1 "" (by decide)⟩

/-! ## A full store -/

theorem addAll_maxSize (kvs : List (String × String)) (store : InMemoryStore) :
    (addAll store kvs).2.maxSize = store.maxSize := by
  induction kvs generalizing store with
  | nil => rfl
  | cons kv kvs ih => rw [addAll, ih, Add_maxSize]

/-- On a full store, a sequence of calls in which every `Delete` is on a key
absent when it is called leaves the store as it is. -/
theorem run_of_full (ops : List Op) (store : InMemoryStore)
    (hfull : store.maxSize ≤ (len store.data : Int))
    (hops : ∀ (pre : List Op) (k : String) (post : List Op),
      ops = pre ++ Op.delete k :: post → k ∉ (run store pre).data) :
    run store ops = store := by
  induction ops with
  | nil => rfl
  | cons op ops ih =>
    have hstep : (call store op).2 = store := by
      cases op with
      | add key value => simp [call, Add_of_full store key value hfull]
      | get key => simp [call, Get_store]
      | delete key =>
        have hk : key ∉ store.data := hops [] key ops rfl
        simp [call, Delete_of_not_mem store key hk]
    rw [run, hstep]
    apply ih
    intro pre k post hpre
    have := hops (op :: pre) k post (by rw [hpre]; rfl)
    rwa [run, hstep] at this

/-- Claim C8: take the store of `NewInMemoryStore c`, `c ≥ 1`, brought to
exactly `c` entries by `Add` calls. (1) Through any sequence of `Add`, `Get`
and `Delete`-of-an-absent-key calls the store stays the same and every `Add`
of the sequence returns `false`. (2) `Delete a` of a present key returns
`true`, and then `Add k v` returns `true` for every `k`, after which `Get k`
returns `(v, true)`, `Get a` returns `("", false)` when `a ≠ k`, and every
other key reads as before. (3) The scenario with capacity 2 gives the listed
results. -/
theorem full_store_until_Delete :
    (∀ (c : Int) (kvs : List (String × String)), 1 ≤ c →
      (len (addAll (NewInMemoryStore c) kvs).2.data : Int) = c →
      (∀ ops : List Op,
        (∀ (pre : List Op) (k : String) (post : List Op), ops = pre ++ Op.delete k :: post →
          k ∉ (run (addAll (NewInMemoryStore c) kvs).2 pre).data) →
        run (addAll (NewInMemoryStore c) kvs).2 ops = (addAll (NewInMemoryStore c) kvs).2 ∧
        ∀ (pre : List Op) (k v : String) (post : List Op), ops = pre ++ Op.add k v :: post →
          ((run (addAll (NewInMemoryStore c) kvs).2 pre).Add k v).1 = false) ∧
      (∀ a : String, a ∈ (addAll (NewInMemoryStore c) kvs).2.data →
        ((addAll (NewInMemoryStore c) kvs).2.Delete a).1 = true ∧
        ∀ k v : String,
          ((((addAll (NewInMemoryStore c) kvs).2.Delete a).2.Add k v).1 = true ∧
          (((((addAll (NewInMemoryStore c) kvs).2.Delete a).2.Add k v).2.Get k).1 = (v, true)) ∧
          (a ≠ k →
            (((((addAll (NewInMemoryStore c) kvs).2.Delete a).2.Add k v).2.Get a).1
              = ("", false))) ∧
          ∀ x : String, x ≠ k → x ≠ a →
            (((((addAll (NewInMemoryStore c) kvs).2.Delete a).2.Add k v).2.Get x).1
              = ((addAll (NewInMemoryStore c) kvs).2.Get x).1)))) ∧
    results (NewInMemoryStore 2)
        [Op.add "a" "1", Op.add "b" "2", Op.add "c" "3", Op.get "a", Op.delete "a",
          Op.add "c" "3", Op.get "b", Op.get "a"]
      = [Res.added true, Res.added true, Res.added false, Res.got "1" true, Res.deleted true,
          Res.added true, Res.got "2" true, Res.got "" false] := by
  refine ⟨?_, by decide⟩
  intro c kvs hc hlen
  generalize hs : (addAll (NewInMemoryStore c) kvs).2 = s at hlen ⊢
  have hmax : s.maxSize = c := by
    rw [← hs, addAll_maxSize]
    rfl
  have hfull : s.maxSize ≤ (len s.data : Int) := by omega
  constructor
  · intro ops hops
    refine ⟨run_of_full ops s hfull hops, ?_⟩
    intro pre k v post hpre
    have hrun : run s pre = s := by
      apply run_of_full pre s hfull
      intro pre2 k2 post2 h2
      exact hops pre2 k2 (post2 ++ Op.add k v :: post) (by rw [hpre, h2]; simp)
    rw [hrun, Add_of_full s k v hfull]
  · intro a ha
    have hdel : s.Delete a = (true, { s with data := s.data.erase a }) := Delete_of_mem s a ha
    have hroom : (len (s.Delete a).2.data : Int) < (s.Delete a).2.maxSize := by
      have := len_erase_of_mem s.data a ha
      rw [hdel]
      simp only
      omega
    refine ⟨by rw [hdel], fun k v => ?_⟩
    have hadd : ((s.Delete a).2.Add k v).1 = true := by
      rw [Add_of_room _ k v hroom]
    refine ⟨hadd, ?_, ?_, ?_⟩
    · rw [Get_fst, lookup_Add_self _ k v hadd]
      rfl
    · intro hak
      rw [Get_fst, lookup_Add_of_ne _ k v a hak, lookup_Delete_self]
      rfl
    · intro x hxk hxa
      rw [Get_fst, Get_fst, lookup_Add_of_ne _ k v x hxk, lookup_Delete_of_ne s a x hxa]

theorem full_store_until_Delete_witness :
    (1 : Int) ≤ 2 ∧
      (len (addAll (NewInMemoryStore 2) [("a", "1"), ("b", "2")]).2.data : Int) = 2 ∧
      "a" ∈ (addAll (NewInMemoryStore 2) [("a", "1"), ("b", "2")]).2.data ∧
      ((addAll (NewInMemoryStore 2) [("a", "1"), ("b", "2")]).2.Delete "a").1 = true :=
  ⟨by decide, by decide, by decide,
    ((full_store_until_Delete.1 2 [("a", "1"), ("b", "2")] (by decide) (by decide)).2 "a"
      (by decide)).1⟩

/-! ## One `Add` per key, for pairwise-distinct keys -/

theorem addAll_of_full (kvs : List (String × String)) (store : InMemoryStore)
    (hfull : store.maxSize ≤ (len store.data : Int)) :
    addAll store kvs = (List.replicate kvs.length false, store) := by
  induction kvs with
  | nil => rfl
  | cons kv kvs ih =>
    simp only [addAll, Add_of_full store kv.1 kv.2 hfull, ih, List.length_cons,
      List.replicate_succ]

theorem lookup_addAll_of_not_mem (kvs : List (String × String)) (store : InMemoryStore)
    (x : String) (hx : ∀ kv ∈ kvs, x ≠ kv.1) :
    (addAll store kvs).2.data.lookup x = store.data.lookup x := by
  induction kvs generalizing store with
  | nil => rfl
  | cons kv kvs ih =>
    simp only [addAll]
    rw [ih _ (fun p hp => hx p (List.mem_cons_of_mem kv hp))]
    exact lookup_Add_of_ne store kv.1 kv.2 x (hx kv (List.mem_cons_self kv kvs))

/-- With room for `r` more entries, one `Add` per pair of a list of fresh,
pairwise-distinct keys accepts the first `r` pairs and refuses the rest. -/
theorem addAll_spec (kvs : List (String × String)) (r : Nat) (store : InMemoryStore)
    (hr : store.maxSize = (len store.data : Int) + r)
    (hnd : (kvs.map Prod.fst).Nodup)
    (hfresh : ∀ kv ∈ kvs, kv.1 ∉ store.data) :
    (addAll store kvs).1
        = List.replicate (min kvs.length r) true ++ List.replicate (kvs.length - r) false ∧
      len (addAll store kvs).2.data = len store.data + min kvs.length r ∧
      ∀ (i : Nat) (hi : i < kvs.length),
        (addAll store kvs).2.data.lookup (kvs[i]).1
          = if i < r then some (kvs[i]).2 else none := by
  induction kvs generalizing r store with
  | nil => simp [addAll]
  | cons kv kvs ih =>
    cases r with
    | zero =>
      have hfull : store.maxSize ≤ (len store.data : Int) := by omega
      rw [addAll_of_full (kv :: kvs) store hfull]
      refine ⟨by simp, by simp, fun i hi => ?_⟩
      simp only [Nat.not_lt_zero, if_false]
      exact Finmap.lookup_eq_none.mpr (hfresh _ (List.getElem_mem hi))
    | succ r =>
      have hroom : (len store.data : Int) < store.maxSize := by omega
      have hkv : kv.1 ∉ store.data := hfresh kv (List.mem_cons_self kv kvs)
      have hnd2 : kv.1 ∉ kvs.map Prod.fst ∧ (kvs.map Prod.fst).Nodup := by
        simpa using hnd
      have hne : ∀ p ∈ kvs, kv.1 ≠ p.1 := fun p hp e =>
        hnd2.1 (List.mem_map.mpr ⟨p, hp, e.symm⟩)
      have hadd := Add_of_room store kv.1 kv.2 hroom
      have hlen : len (store.data.insert kv.1 kv.2) = len store.data + 1 :=
        len_insert_of_not_mem store.data kv.1 kv.2 hkv
      have ih2 := ih r { store with data := store.data.insert kv.1 kv.2 }
        (by simp only [hlen]; push_cast; omega) hnd2.2
        (fun p hp hmem => by
          rcases Finmap.mem_insert.mp hmem with e | hin
          · exact hne p hp e.symm
          · exact hfresh p (List.mem_cons_of_mem kv hp) hin)
      simp only [addAll, hadd]
      refine ⟨?_, ?_, ?_⟩
      · rw [ih2.1]
        simp [Nat.succ_min_succ, List.replicate_succ]
      · rw [ih2.2.1, hlen]
        simp only [List.length_cons, Nat.succ_min_succ]
        omega
      · intro i hi
        cases i with
        | zero =>
          simp only [List.getElem_cons_zero, Nat.zero_lt_succ, if_true]
          rw [lookup_addAll_of_not_mem kvs _ kv.1 hne]
          exact Finmap.lookup_insert store.data
        | succ i =>
          simp only [List.getElem_cons_succ, Nat.succ_lt_succ_iff]
          exact ih2.2.2 i (by simpa using hi)

/-- Claim C9: for a capacity `c ≥ 0` and `n` pairs with pairwise-distinct
keys, one `Add` per pair on the store of `NewInMemoryStore c`, in any order
of the pairs, returns `true` for the first `min n c` calls and `false` for
the others (so exactly `min n c` calls return `true`); the final number of
entries is `min n c`; a key whose `Add` returned `true` is present with the
value given to it and a key whose `Add` returned `false` is absent. -/
theorem distinct_Adds (c : Int) (hc : 0 ≤ c) (kvs order : List (String × String))
    (hnd : (kvs.map Prod.fst).Nodup) (hperm : order.Perm kvs) :
    (addAll (NewInMemoryStore c) order).1
        = List.replicate (min kvs.length c.toNat) true
          ++ List.replicate (kvs.length - min kvs.length c.toNat) false ∧
      (addAll (NewInMemoryStore c) order).1.count true = min kvs.length c.toNat ∧
      (len (addAll (NewInMemoryStore c) order).2.data : Int) = min (kvs.length : Int) c ∧
      ∀ (i : Nat) (hi : i < order.length),
        ((addAll (NewInMemoryStore c) order).1[i]? = some true →
          (addAll (NewInMemoryStore c) order).2.data.lookup (order[i]).1
            = some (order[i]).2) ∧
        ((addAll (NewInMemoryStore c) order).1[i]? = some false →
          (addAll (NewInMemoryStore c) order).2.data.lookup (order[i]).1 = none) := by
  have hlen : order.length = kvs.length := hperm.length_eq
  have hnd2 : (order.map Prod.fst).Nodup := ((hperm.map Prod.fst).nodup_iff).mpr hnd
  have h0 : len (NewInMemoryStore c).data = 0 := len_empty
  obtain ⟨h1, h2, h3⟩ := addAll_spec order c.toNat (NewInMemoryStore c)
    (by rw [h0]; show c = ((0 : Nat) : Int) + (c.toNat : Int); rw [Int.toNat_of_nonneg hc]; simp)
    hnd2 (fun kv _ => Finmap.not_mem_empty)
  rw [hlen] at h1
  rw [hlen, h0] at h2
  have hres : (addAll (NewInMemoryStore c) order).1
      = List.replicate (min kvs.length c.toNat) true
        ++ List.replicate (kvs.length - min kvs.length c.toNat) false := by
    rw [h1]
    congr 2
    omega
  refine ⟨hres, ?_, ?_, ?_⟩
  · rw [hres]
    simp [List.count_replicate]
  · rw [h2]
    have := Int.toNat_of_nonneg hc
    omega
  · intro i hi
    have hlook := h3 i hi
    have hget : (addAll (NewInMemoryStore c) order).1[i]? = some (decide (i < c.toNat)) := by
      rw [h1]
      by_cases hic : i < c.toNat
      · have hi2 : i < min kvs.length c.toNat := by omega
        rw [List.getElem?_append_left (by simpa using hi2)]
        simp [hic, List.getElem?_replicate, hi2]
      · have hi2 : min kvs.length c.toNat ≤ i := by omega
        have hi3 : i - min kvs.length c.toNat < kvs.length - c.toNat := by omega
        rw [List.getElem?_append_right (by simpa using hi2)]
        simp [hic, List.getElem?_replicate, hi3]
    rw [hget]
    by_cases hic : i < c.toNat
    · simp [hic, hlook]
    · simp [hic, hlook]

theorem distinct_Adds_witness :
    (0 : Int) ≤ 1 ∧ ([("a", "1"), ("b", "2")].map Prod.fst).Nodup ∧
      [("b", "2"), ("a", "1")].Perm [("a", "1"), ("b", "2")] ∧
      (addAll (NewInMemoryStore 1) [("b", "2"), ("a", "1")]).1
        = List.replicate (min [("a", "1"), ("b", "2")].length (1 : Int).toNat) true
          ++ List.replicate ([("a", "1"), ("b", "2")].length
              - min [("a", "1"), ("b", "2")].length (1 : Int).toNat) false :=
  ⟨by decide, by decide, by decide,
    (distinct_Adds 1 (by decide) [("a", "1"), ("b", "2")] [("b", "2"), ("a", "1")]
      (by decide) (by decide)).1⟩

/-! ## The handlers -/

/-- The record of calls kept by `Handler.exec` is truthful for every handler:
the store it leaves is the one obtained by performing the recorded calls. -/
theorem exec_store_eq_run (h : Handler) (store : InMemoryStore) :
    (h.exec store).store = run store (h.exec store).calls := by
  induction h generalizing store with
  | respond status body out => rfl
  | callAdd key value next ih =>
    simp only [Handler.exec, run, call]
    exact ih _ _
  | callGet key next ih =>
    simp only [Handler.exec, run, call]
    exact ih _ _ _
  | callDelete key next ih =>
    simp only [Handler.exec, run, call]
    exact ih _ _

theorem handleAdd_of_wrong_method (decode : String → Option (String × String))
    (r : Request) (h : r.Method ≠ MethodPost) :
    handleAdd decode r
      = httpError "Invalid request method" StatusMethodNotAllowed
          ["error in post request"] := by
  unfold handleAdd
  rw [if_pos h]

theorem handleAdd_of_bad_body (decode : String → Option (String × String))
    (r : Request) (h : r.Method = MethodPost) (hd : decode r.Body = none) :
    handleAdd decode r = httpError "Invalid request body" StatusBadRequest [] := by
  unfold handleAdd
  rw [if_neg (not_not.mpr h), hd]

theorem handleAdd_of_decoded (decode : String → Option (String × String))
    (store : InMemoryStore) (r : Request) (h : r.Method = MethodPost) (k v : String)
    (hd : decode r.Body = some (k, v)) :
    (handleAdd decode r).exec store =
      { status := if (store.Add k v).1 then 201 else 409
        body := if (store.Add k v).1 then "Added: " ++ k ++ " -> " ++ v ++ "\n"
          else "Store is full\n"
        stdout := []
        calls := [Op.add k v]
        store := (store.Add k v).2 } := by
  unfold handleAdd
  rw [if_neg (not_not.mpr h), hd]
  by_cases ha : (store.Add k v).1 = true
  · simp [Handler.exec, ha, StatusCreated]
  · simp [Handler.exec, ha, httpError, StatusConflict]

theorem handleGet_of_wrong_method (r : Request) (h : r.Method ≠ MethodGet) :
    handleGet r = httpError "Invalid request method" StatusMethodNotAllowed [] := by
  unfold handleGet
  rw [if_pos h]

theorem handleGet_of_right_method (store : InMemoryStore) (r : Request)
    (h : r.Method = MethodGet) :
    (handleGet r).exec store =
      { status := if (store.Get (r.queryGet "key")).1.2 then 200 else 404
        body := if (store.Get (r.queryGet "key")).1.2 then
            "Retrieved: " ++ r.queryGet "key" ++ " -> "
              ++ (store.Get (r.queryGet "key")).1.1 ++ "\n"
          else "Key not found\n"
        stdout := []
        calls := [Op.get (r.queryGet "key")]
        store := (store.Get (r.queryGet "key")).2 } := by
  unfold handleGet
  rw [if_neg (not_not.mpr h)]
  by_cases hg : (store.Get (r.queryGet "key")).1.2 = true
  · simp [Handler.exec, hg, StatusOK]
  · simp [Handler.exec, hg, httpError, StatusNotFound]

theorem handleDelete_of_wrong_method (r : Request) (h : r.Method ≠ MethodDelete) :
    handleDelete r = httpError "Invalid request method" StatusMethodNotAllowed [] := by
  unfold handleDelete
  rw [if_pos h]

theorem handleDelete_of_right_method (store : InMemoryStore) (r : Request)
    (h : r.Method = MethodDelete) :
    (handleDelete r).exec store =
      { status := if (store.Delete (r.queryGet "key")).1 then 200 else 404
        body := if (store.Delete (r.queryGet "key")).1 then
            "Deleted key: " ++ r.queryGet "key" ++ "\n"
          else "Key not found\n"
        stdout := []
        calls := [Op.delete (r.queryGet "key")]
        store := (store.Delete (r.queryGet "key")).2 } := by
  unfold handleDelete
  rw [if_neg (not_not.mpr h)]
  by_cases hg : (store.Delete (r.queryGet "key")).1 = true
  · simp [Handler.exec, hg, StatusOK]
  · simp [Handler.exec, hg, httpError, StatusNotFound]

/-- Claim C10: `/add` with a method other than POST answers 405, and with a
POST whose body does not decode answers 400; `/get` with a method other than
GET and `/delete` with a method other than DELETE answer 405; in each of
these cases no method of the store is called and the store is unchanged.
Every other request makes exactly one call of the store: `Add` of the decoded
key and value, `Get` of the query key, `Delete` of the query key,
respectively; it leaves the store that this call leaves, and its status and
body are those the result of this call selects (201 or 409 for `Add`, 200
with the value read or 404 for `Get`, 200 or 404 for `Delete`). The calls
are those performed when the handler is run, and the store a handler leaves
is the one its recorded calls produce. -/
theorem handlers_gate_store (decode : String → Option (String × String))
    (store : InMemoryStore) (r : Request) :
    (r.Method ≠ "POST" →
      (handleAdd decode r).exec store =
        { status := 405, body := "Invalid request method\n"
          stdout := ["error in post request"], calls := [], store := store }) ∧
    (r.Method = "POST" → decode r.Body = none →
      (handleAdd decode r).exec store =
        { status := 400, body := "Invalid request body\n"
          stdout := [], calls := [], store := store }) ∧
    (r.Method = "POST" → ∀ k v : String, decode r.Body = some (k, v) →
      (handleAdd decode r).exec store =
        { status := if (store.Add k v).1 then 201 else 409
          body := if (store.Add k v).1 then "Added: " ++ k ++ " -> " ++ v ++ "\n"
            else "Store is full\n"
          stdout := []
          calls := [Op.add k v]
          store := (store.Add k v).2 }) ∧
    (r.Method ≠ "GET" →
      (handleGet r).exec store =
        { status := 405, body := "Invalid request method\n"
          stdout := [], calls := [], store := store }) ∧
    (r.Method = "GET" →
      (handleGet r).exec store =
        { status := if (store.Get (r.queryGet "key")).1.2 then 200 else 404
          body := if (store.Get (r.queryGet "key")).1.2 then
              "Retrieved: " ++ r.queryGet "key" ++ " -> "
                ++ (store.Get (r.queryGet "key")).1.1 ++ "\n"
            else "Key not found\n"
          stdout := []
          calls := [Op.get (r.queryGet "key")]
          store := (store.Get (r.queryGet "key")).2 }) ∧
    (r.Method ≠ "DELETE" →
      (handleDelete r).exec store =
        { status := 405, body := "Invalid request method\n"
          stdout := [], calls := [], store := store }) ∧
    (r.Method = "DELETE" →
      (handleDelete r).exec store =
        { status := if (store.Delete (r.queryGet "key")).1 then 200 else 404
          body := if (store.Delete (r.queryGet "key")).1 then
              "Deleted key: " ++ r.queryGet "key" ++ "\n"
            else "Key not found\n"
          stdout := []
          calls := [Op.delete (r.queryGet "key")]
          store := (store.Delete (r.queryGet "key")).2 }) ∧
    ((handleAdd decode r).exec store).store
      = run store ((handleAdd decode r).exec store).calls ∧
    ((handleGet r).exec store).store = run store ((handleGet r).exec store).calls ∧
    ((handleDelete r).exec store).store
      = run store ((handleDelete r).exec store).calls := by
  refine ⟨?_, ?_, ?_, ?_, ?_, ?_, ?_, exec_store_eq_run _ store, exec_store_eq_run _ store,
    exec_store_eq_run _ store⟩
  · intro h
    rw [handleAdd_of_wrong_method decode r h]
    rfl
  · intro h hd
    rw [handleAdd_of_bad_body decode r h hd]
    rfl
  · intro h k v hd
    exact handleAdd_of_decoded decode store r h k v hd
  · intro h
    rw [handleGet_of_wrong_method r h]
    rfl
  · intro h
    exact handleGet_of_right_method store r h
  · intro h
    rw [handleDelete_of_wrong_method r h]
    rfl
  · intro h
    exact handleDelete_of_right_method store r h

theorem handlers_gate_store_witness :
    ((Request.mk "GET" "" []).Method ≠ "POST" ∧
      (handleAdd (fun _ => none) (Request.mk "GET" "" [])).exec (NewInMemoryStore 100) =
        { status := 405, body := "Invalid request method\n"
          stdout := ["error in post request"], calls := []
          store := NewInMemoryStore 100 }) ∧
    ((Request.mk "POST" "x" []).Method = "POST" ∧
      (handleAdd (fun _ => none) (Request.mk "POST" "x" [])).exec (NewInMemoryStore 100) =
        { status := 400, body := "Invalid request body\n"
          stdout := [], calls := [], store := NewInMemoryStore 100 }) ∧
    ((Request.mk "POST" "x" []).Method = "POST" ∧
      (handleAdd (fun _ => some ("a", "1")) (Request.mk "POST" "x" [])).exec
          (NewInMemoryStore 100) =
        { status := 201, body := "Added: a -> 1\n", stdout := [], calls := [Op.add "a" "1"]
          store := InMemoryStore.mk (Finmap.singleton "a" "1") 100 }) ∧
    ((Request.mk "POST" "x" []).Method = "POST" ∧
      (handleAdd (fun _ => some ("b", "2")) (Request.mk "POST" "x" [])).exec
          (InMemoryStore.mk (Finmap.singleton "a" "1") 1) =
        { status := 409, body := "Store is full\n", stdout := [], calls := [Op.add "b" "2"]
          store := InMemoryStore.mk (Finmap.singleton "a" "1") 1 }) ∧
    ((Request.mk "GET" "" [("key", "a")]).Method = "GET" ∧
      (handleGet (Request.mk "GET" "" [("key", "a")])).exec
          (InMemoryStore.mk (Finmap.singleton "a" "1") 100) =
        { status := 200, body := "Retrieved: a -> 1\n", stdout := [], calls := [Op.get "a"]
          store := InMemoryStore.mk (Finmap.singleton "a" "1") 100 }) ∧
    ((Request.mk "GET" "" [("key", "b")]).Method = "GET" ∧
      (handleGet (Request.mk "GET" "" [("key", "b")])).exec
          (InMemoryStore.mk (Finmap.singleton "a" "1") 100) =
        { status := 404, body := "Key not found\n", stdout := [], calls := [Op.get "b"]
          store := InMemoryStore.mk (Finmap.singleton "a" "1") 100 }) ∧
    ((Request.mk "DELETE" "" [("key", "a")]).Method = "DELETE" ∧
      (handleDelete (Request.mk "DELETE" "" [("key", "a")])).exec
          (InMemoryStore.mk (Finmap.singleton "a" "1") 100) =
        { status := 200, body := "Deleted key: a\n", stdout := [], calls := [Op.delete "a"]
          store := InMemoryStore.mk ∅ 100 }) :=
  ⟨⟨by decide,
      (handlers_gate_store (fun _ => none) (NewInMemoryStore 100) (Request.mk "GET" "" [])).1
        (by decide)⟩,
    ⟨by decide,
      (handlers_gate_store (fun _ => none) (NewInMemoryStore 100)
        (Request.mk "POST" "x" [])).2.1 (by decide) rfl⟩,
    ⟨by decide,
      ((handlers_gate_store (fun _ => some ("a", "1")) (NewInMemoryStore 100)
        (Request.mk "POST" "x" [])).2.2.1 (by decide) "a" "1" rfl).trans (by decide)⟩,
    ⟨by decide,
      ((handlers_gate_store (fun _ => some ("b", "2"))
        (InMemoryStore.mk (Finmap.singleton "a" "1") 1)
        (Request.mk "POST" "x" [])).2.2.1 (by decide) "b" "2" rfl).trans (by decide)⟩,
    ⟨by decide,
      ((handlers_gate_store (fun _ => none) (InMemoryStore.mk (Finmap.singleton "a" "1") 100)
        (Request.mk "GET" "" [("key", "a")])).2.2.2.2.1 (by decide)).trans (by decide)⟩,
    ⟨by decide,
      ((handlers_gate_store (fun _ => none) (InMemoryStore.mk (Finmap.singleton "a" "1") 100)
        (Request.mk "GET" "" [("key", "b")])).2.2.2.2.1 (by decide)).trans (by decide)⟩,
    ⟨by decide,
      ((handlers_gate_store (fun _ => none) (InMemoryStore.mk (Finmap.singleton "a" "1") 100)
        (Request.mk "DELETE" "" [("key", "a")])).2.2.2.2.2.2.1 (by decide)).trans
        (by decide)⟩⟩

end Cache
